import Mathlib

/-!
Verification development for the lentil research notebooks.

The notebooks parse student interaction logs into interaction histories,
filter them, generate synthetic interaction data from item-response-theory
(1PL/2PL) models and from a grid-structured knowledge embedding, and fit
latent-skill models to the result.

Conventions of the embedding:
  * dataframes become lists of records; a raw CSV cell that may be missing
    or non-numeric (NaN) is an `Option ℚ` value, `none` standing for a
    missing/NaN entry (any comparison with NaN is false in pandas, matched
    here by pattern matching on `none`);
  * real-valued quantities computed with `math.exp` / `np.linalg.norm`
    live in `ℝ`; all bookkeeping (ids, timesteps, counts) is computable;
  * random draws (`np.random.random`, `np.random.normal`, `random.choice`)
    become explicit arguments, so a sampled quantity is a deterministic
    function of the draws that produced it;
  * functions from the `lentil` library itself (module `datatools` etc.)
    are not part of the sources; where a claim depends on one, a definition
    is modelled from the spec and marked as such in its doc comment.
-/

namespace Lentil

/-! ## Data model: interaction rows -/

/-- A raw row of one of the source CSV data sets, after column selection and
renaming (`student_id`, `outcome`, `module_id`, `duration`).  `outcome` and
`duration` are `Option ℚ` because the raw columns may hold missing/NaN
values, which compare as false against any number in pandas. -/
structure RawIxn where
  student_id : ℕ
  outcome : Option ℚ
  module_id : ℕ
  duration : Option ℚ
deriving DecidableEq

/-- A normalized interaction row of an interaction history: the shape shared
by the tables handed to `datatools.InteractionHistory`. -/
structure Ixn where
  student_id : ℕ
  module_id : ℕ
  is_assessment : Bool
  outcome : Option Bool
  timestep : ℕ
  duration : ℚ
deriving DecidableEq

/-! ## Dataset parsers

All three parsers (Grockit, KDD Cup, Assistments) share the same shape after
column renaming: keep rows with binary outcome and positive duration, cast
the outcome to a boolean, assign per-student timesteps by a running counter
in row order, mark the rows as assessment interactions, and append a deep
copy of every row re-tagged as a lesson interaction.  The Assistments parser
additionally divides durations by 1000 (milliseconds to seconds). -/

/-- The row-retention test shared verbatim by the three parsers:
`((data.outcome == 1) | (data.outcome == 0)) & (data.duration > 0)`. -/
def keep_ixn (r : RawIxn) : Bool :=
  (decide (r.outcome = some 1) || decide (r.outcome = some 0)) &&
    (match r.duration with
      | some d => decide (0 < d)
      | none => false)

/-- The per-student timestep assignment loop of the parsers: walk the rows
in order, keep a counter per student id, and give each row the incremented
counter of its student. -/
def assign_timesteps : (ℕ → ℕ) → List RawIxn → List (RawIxn × ℕ)
  | _, [] => []
  | ctr, r :: rest =>
      (r, ctr r.student_id + 1) ::
        assign_timesteps
          (fun s => if s = r.student_id then ctr r.student_id + 1 else ctr s) rest

/-- Turn a timestep-annotated raw row into an assessment interaction row:
outcome cast to a boolean (`x == 1`), duration divided by `scale`
(1000 for Assistments, 1 for the other parsers). -/
def as_assessment (scale : ℚ) (p : RawIxn × ℕ) : Ixn :=
  { student_id := p.1.student_id
    module_id := p.1.module_id
    is_assessment := true
    outcome := some (decide (p.1.outcome = some 1))
    timestep := p.2
    duration := p.1.duration.getD 0 / scale }

/-- The artificial lesson interaction: a deep copy of an assessment row with
only the module type changed. -/
def as_lesson (r : Ixn) : Ixn := { r with is_assessment := false }

/-- The common body of the three parsers: filter, assign timesteps, tag as
assessments, and append the lesson copies. -/
def parsed_rows (scale : ℚ) (raw : List RawIxn) : List Ixn :=
  let adata := (assign_timesteps (fun _ => 0) (raw.filter keep_ixn)).map (as_assessment scale)
  adata ++ adata.map as_lesson

/-- Grockit parser (durations already in seconds, computed upstream from the
`round_started_at` / `answered_at` timestamps; rows arrive sorted by
`answered_at`). -/
def interaction_history_from_grockit_data_set (raw : List RawIxn) : List Ixn :=
  parsed_rows 1 raw

/-- KDD Cup parser (durations in seconds from `Step Duration (sec)`; rows
arrive sorted by `Step Start Time`). -/
def interaction_history_from_kdd_cup_data_set (raw : List RawIxn) : List Ixn :=
  parsed_rows 1 raw

/-- Assistments parser (durations in milliseconds from
`ms_first_response_time`, divided by 1000; rows arrive sorted by
`order_id`). -/
def interaction_history_from_assistments_data_set (raw : List RawIxn) : List Ixn :=
  parsed_rows 1000 raw

/-! ## Derived views over a history -/

/-- Rows of one student. -/
def student_rows (rows : List Ixn) (s : ℕ) : List Ixn :=
  rows.filter (fun r => decide (r.student_id = s))

/-- Timesteps of all of one student's interactions, in row order. -/
def ts_of (rows : List Ixn) (s : ℕ) : List ℕ :=
  (student_rows rows s).map (·.timestep)

/-- Timesteps of one student's assessment interactions, in row order. -/
def assessment_ts (rows : List Ixn) (s : ℕ) : List ℕ :=
  ((student_rows rows s).filter (·.is_assessment)).map (·.timestep)

/-- Number of assessment interactions of one student. -/
def assessment_count (rows : List Ixn) (s : ℕ) : ℕ :=
  (assessment_ts rows s).length

/-- Number of interactions (of either type) on one module, the size of the
`groupby('module_id')` group. -/
def module_count (rows : List Ixn) (m : ℕ) : ℕ :=
  (rows.filter (fun r => decide (r.module_id = m))).length

/-! ## Timestep reindexing (modelled) and `filter_history` -/

/-- Largest timestep of one student (0 if the student has no rows). -/
def max_ts (rows : List Ixn) (s : ℕ) : ℕ :=
  (ts_of rows s).foldr max 0

/-- The distinct timesteps of one student, in increasing order. -/
def distinct_ts (rows : List Ixn) (s : ℕ) : List ℕ :=
  (List.range (max_ts rows s + 1)).filter (fun t => decide (t ∈ ts_of rows s))

/-- Modelled from the spec: the `reindex_timesteps=True` mode of the
`datatools.InteractionHistory` constructor is not among the sources; the
spec requires re-filtered histories to have per-student timesteps forming
a contiguous range starting at 1, in chronological order.  Each timestep is
replaced by its rank among the student's distinct timesteps. -/
def new_ts (rows : List Ixn) (s t : ℕ) : ℕ :=
  (distinct_ts rows s).indexOf t + 1

/-- Reindexing of a whole table (see `new_ts`). -/
def reindex_history (rows : List Ixn) : List Ixn :=
  rows.map (fun r => { r with timestep := new_ts rows r.student_id r.timestep })

/-- The student-retention test of `filter_history`: the student has some
assessment interaction with timestep strictly above `mn`
(`data['timestep'] > min_num_ixns` restricted to assessment rows) and no
interaction at all with timestep at least `mx`
(`data['timestep'] >= max_num_ixns`). -/
def student_kept (rows : List Ixn) (mn mx : ℕ) (s : ℕ) : Bool :=
  (rows.any fun r => decide (r.student_id = s) && decide (mn < r.timestep) && r.is_assessment) &&
    !(rows.any fun r => decide (r.student_id = s) && decide (mx ≤ r.timestep))

/-- The module-retention test of `filter_history`: the module's group has
strictly more than `mn` rows. -/
def module_kept (rows : List Ixn) (mn : ℕ) (m : ℕ) : Bool :=
  decide (mn < module_count rows m)

/-- The row-selection stage of `filter_history`: keep the rows whose student
and module both pass their retention tests (computed on the input table). -/
def filter_kept_rows (rows : List Ixn) (mn mx : ℕ) : List Ixn :=
  rows.filter (fun r => student_kept rows mn mx r.student_id && module_kept rows mn r.module_id)

/-- `filter_history`: select rows, then rebuild the history with reindexed
timesteps. -/
def filter_history (rows : List Ixn) (mn mx : ℕ) : List Ixn :=
  reindex_history (filter_kept_rows rows mn mx)

/-- The filter as the claim words it: keep exactly the rows whose student's
assessment-interaction count lies in the inclusive interval `[mn, mx]` and
whose module has more than `mn` interactions in the input history. -/
def claimed_filter (rows : List Ixn) (mn mx : ℕ) : List Ixn :=
  rows.filter (fun r =>
    decide (mn ≤ assessment_count rows r.student_id) &&
      decide (assessment_count rows r.student_id ≤ mx) &&
      module_kept rows mn r.module_id)

/-- Number of times the reference pipeline repeats the filter. -/
def REPEATED_FILTER : ℕ := 3

/-- The reference pipeline's `reduce` loop: apply
`filter_history (min_num_ixns := 75) (max_num_ixns := 1000)` once per
element of `range(REPEATED_FILTER)`. -/
def repeated_filter (h : List Ixn) : List Ixn :=
  (List.range REPEATED_FILTER).foldl (fun acc _ => filter_history acc 75 1000) h

/-- The per-student timestep invariant of a well-formed history: every row's
timestep lies between 1 and its student's assessment count, and every
student's assessment timesteps are exactly `1, 2, ..., count` in order. -/
def well_indexed (rows : List Ixn) : Bool :=
  rows.all fun r =>
    decide (1 ≤ r.timestep) &&
      decide (r.timestep ≤ assessment_count rows r.student_id) &&
      decide (assessment_ts rows r.student_id =
        List.range' 1 (assessment_count rows r.student_id))

/-! ## Synthetic grid embedding (notebook `synthetic_experiments`)

The notebook lays assessments on a `grid_size × grid_size` grid and lessons
on the grid's edges, scales everything by `cell_size`, and clamps the
assessment and prerequisite embeddings elementwise to a floor of `1e-3`.
Students walk from `(0,0)` to the opposite corner; each consumed lesson adds
its embedding to the student's skill state. -/

/-- Skill vectors: `embedding_dimension = 2`. -/
abbrev Vec := Fin 2 → ℚ

def grid_size : ℕ := 5

def cell_size : ℚ := 10 / ((grid_size : ℚ) - 1)

def num_assessments_emb : ℕ := grid_size ^ 2

def num_lessons_emb : ℕ := 2 * grid_size * (grid_size - 1)

/-- The lessons in construction order: the double loop over grid locations
`(i, j)` pushes, at each location, an upward lesson (direction `(0,1)`, when
`j < grid_size - 1`) and then a rightward lesson (direction `(1,0)`, when
`i < grid_size - 1`).  Each entry is (prerequisite location, direction). -/
def lesson_specs : List ((ℕ × ℕ) × (ℕ × ℕ)) :=
  (List.range grid_size).flatMap fun i =>
    (List.range grid_size).flatMap fun j =>
      (if j < grid_size - 1 then [((i, j), (0, 1))] else []) ++
        (if i < grid_size - 1 then [((i, j), (1, 0))] else [])

/-- Coordinates of a pair, as a skill vector. -/
def loc_vec (p : ℕ × ℕ) : Vec := fun k => if k = 0 then (p.1 : ℚ) else (p.2 : ℚ)

/-- Assessment embeddings: `A[grid_size*i + j] = [i, j]`, scaled by
`cell_size`, then clamped elementwise by `A = np.maximum(1e-3, A)`. -/
def A_emb (a : ℕ) : Vec := fun k =>
  max (1 / 1000) (cell_size * loc_vec (a / grid_size, a % grid_size) k)

/-- Prerequisite embeddings: the lesson's source location, scaled by
`cell_size`, then clamped elementwise by `Q = np.maximum(1e-3, Q)`. -/
def Q_emb (l : ℕ) : Vec := fun k =>
  max (1 / 1000) (cell_size * loc_vec (lesson_specs.getD l ((0, 0), (0, 0))).1 k)

/-- Lesson (gain) embeddings: the lesson's direction scaled by `cell_size`;
note that `L` is not clamped. -/
def L_emb (l : ℕ) : Vec := fun k =>
  cell_size * loc_vec (lesson_specs.getD l ((0, 0), (0, 0))).2 k

/-- The assessment index of grid location `(0, 0)`
(`assessment_idx_of_loc[(0, 0)] = grid_size * 0 + 0`), the index singled out
by the generator's debug override. -/
def assessment_idx00 : ℕ := 0

/-- The skill gained at timestep `t`: the embedding of the lesson consumed
at `t` (`steps` lists, in order, the lesson indices consumed at timesteps
`1, 2, ...`), and the zero vector when no lesson is consumed at `t`. -/
def lesson_update (steps : List ℕ) (t : ℕ) : Vec :=
  if 1 ≤ t ∧ t ≤ steps.length then L_emb (steps.getD (t - 1) 0) else fun _ => 0

/-- The generator's skill-state trajectory for one student: `S` is
initialized to zeros and the loop performs
`S[student_idx, :, t+1] = S[student_idx, :, t] + L[lesson_idx, :]` (the
prerequisite gate is commented out in the source). -/
def S_emb (steps : List ℕ) : ℕ → Vec
  | 0 => fun _ => 0
  | t + 1 => S_emb steps t + lesson_update steps t

/-- Modelled from the spec: the fitted embedding model's skill trajectory.
The spec states the transition `skill_state[t+1] = skill_state[t] + (lesson
embedding consumed at t)` is enforced as an equality constraint by the
estimator (`models.EmbeddingModel` / `est.EmbeddingMAPEstimator` are not
among the sources), so fitted trajectories satisfy the same recurrence with
the fitted lesson embeddings. -/
def fitted_skill_state (emb : ℕ → Vec) (steps : List ℕ) : ℕ → Vec
  | 0 => fun _ => 0
  | t + 1 =>
      fitted_skill_state emb steps t +
        if 1 ≤ t ∧ t ≤ steps.length then emb (steps.getD (t - 1) 0) else fun _ => 0

/-! ## Scoring functions -/

/-- Dot product of two skill vectors. -/
def dot_vec (u v : Vec) : ℚ := ∑ k, u k * v k

/-- Sum of squared entries of a skill vector (the square of its norm). -/
def sq_sum (v : Vec) : ℚ := ∑ k, v k ^ 2

noncomputable section

/-- The logistic function `1 / (1 + exp(-x))`. -/
def sigmoid (x : ℝ) : ℝ := 1 / (1 + Real.exp (-x))

/-- Euclidean norm (`np.linalg.norm`) of a skill vector. -/
def norm_vec (v : Vec) : ℝ := Real.sqrt ((sq_sum v : ℚ) : ℝ)

/-- The generator's assessment pass likelihood:
`1 / (1 + exp(-(dot(S, A[a]) / ||A[a]|| - ||A[a]||)))`. -/
def emb_pass_likelihood (S : Vec) (a : ℕ) : ℝ :=
  sigmoid ((dot_vec S (A_emb a) : ℝ) / norm_vec (A_emb a) - norm_vec (A_emb a))

/-- The success probability actually used for an outcome sampled inside the
per-step assessment loop: the debug override replaces the Bernoulli
parameter by `0.1` whenever the drawn assessment is the one at grid
location `(0, 0)`. -/
def step_outcome_prob (S : Vec) (a : ℕ) : ℝ :=
  if assessment_idx00 = a then 1 / 10 else emb_pass_likelihood S a

/-- Modelled from the spec: the embedding model's scoring function
(`models.EmbeddingModel` is not among the sources):
`sigmoid(dot(skill, emb)/||emb|| - ||emb|| + student_bias +
assessment_bias)`, the bias terms being zero when bias is disabled. -/
def embedding_model_pass_prob (S emb : Vec) (student_bias assessment_bias : ℝ) : ℝ :=
  sigmoid ((dot_vec S emb : ℝ) / norm_vec emb - norm_vec emb +
    student_bias + assessment_bias)

/-! ## Synthetic 1PL/2PL IRT generator -/

/-- `num_students = 2000`. -/
def irt_num_students : ℕ := 2000

/-- `num_assessments = 3000`. -/
def irt_num_assessments : ℕ := 3000

/-- `num_ixns_per_student = 1000`. -/
def num_ixns_per_student : ℕ := 1000

/-- `USING_2PL = False  # False => using 1PL`. -/
def USING_2PL : Bool := false

/-- The `(loc, scale)` arguments of `np.random.normal(0, 1, num_students)`
for proficiencies. -/
def proficiency_normal_params : ℚ × ℚ := (0, 1)

/-- The `(loc, scale)` arguments of `np.random.normal(0, 1, num_assessments)`
for difficulties. -/
def difficulty_normal_params : ℚ × ℚ := (0, 1)

/-- Discriminabilities: standard-normal draws when `USING_2PL`, otherwise
`np.ones(num_assessments)`. -/
def irt_discriminabilities (draws : ℕ → ℚ) : ℕ → ℚ :=
  if USING_2PL then draws else fun _ => 1

/-- The IRT generator's pass likelihood:
`1 / (1 + exp(-(discriminabilities[m] * proficiencies[s] +
difficulties[m])))`.  Note the difficulty enters with a positive sign. -/
def irt_pass_likelihood (disc prof diff : ℚ) : ℝ :=
  sigmoid ((disc * prof + diff : ℚ) : ℝ)

/-- The sampled outcome `np.random.random() < pass_likelihood`, as a
function of the uniform draw `u`. -/
def irt_outcome (u : ℚ) (disc prof diff : ℚ) : Prop :=
  (u : ℝ) < irt_pass_likelihood disc prof diff

/-- Modelled from the spec: the 1PL scoring convention the spec asserts,
`pass_probability = sigmoid(proficiency[s] - difficulty[a])`
(`models.OneParameterLogisticModel` is not among the sources). -/
def spec_onepl_pass_prob (prof diff : ℚ) : ℝ :=
  sigmoid ((prof : ℝ) - (diff : ℝ))

end

/-! ## Helper lemmas -/

theorem lesson_specs_eq :
    lesson_specs =
      [((0, 0), 0, 1), ((0, 0), 1, 0), ((0, 1), 0, 1), ((0, 1), 1, 0), ((0, 2), 0, 1),
        ((0, 2), 1, 0), ((0, 3), 0, 1), ((0, 3), 1, 0), ((0, 4), 1, 0), ((1, 0), 0, 1),
        ((1, 0), 1, 0), ((1, 1), 0, 1), ((1, 1), 1, 0), ((1, 2), 0, 1), ((1, 2), 1, 0),
        ((1, 3), 0, 1), ((1, 3), 1, 0), ((1, 4), 1, 0), ((2, 0), 0, 1), ((2, 0), 1, 0),
        ((2, 1), 0, 1), ((2, 1), 1, 0), ((2, 2), 0, 1), ((2, 2), 1, 0), ((2, 3), 0, 1),
        ((2, 3), 1, 0), ((2, 4), 1, 0), ((3, 0), 0, 1), ((3, 0), 1, 0), ((3, 1), 0, 1),
        ((3, 1), 1, 0), ((3, 2), 0, 1), ((3, 2), 1, 0), ((3, 3), 0, 1), ((3, 3), 1, 0),
        ((3, 4), 1, 0), ((4, 0), 0, 1), ((4, 1), 0, 1), ((4, 2), 0, 1), ((4, 3), 0, 1)] := by
  decide

theorem sigmoid_strictMono : StrictMono sigmoid := by
  intro x y hxy
  have h2 : (0 : ℝ) < 1 + Real.exp (-x) := by positivity
  have h1 : (0 : ℝ) < 1 + Real.exp (-y) := by positivity
  have hexp : Real.exp (-y) < Real.exp (-x) := Real.exp_lt_exp.mpr (neg_lt_neg hxy)
  unfold sigmoid
  rw [div_lt_div_iff₀ h2 h1]
  nlinarith

theorem half_lt_sigmoid {x : ℝ} (hx : 0 < x) : 1 / 2 < sigmoid x := by
  have he : Real.exp (-x) < 1 := Real.exp_lt_one_iff.mpr (by linarith)
  have h2 : (0 : ℝ) < 1 + Real.exp (-x) := by positivity
  unfold sigmoid
  rw [div_lt_div_iff₀ (by norm_num) h2]
  nlinarith

theorem aux_onepl_collapse (draws : ℕ → ℚ) (p d : ℚ) (a : ℕ) :
    irt_pass_likelihood (irt_discriminabilities draws a) p d =
      sigmoid ((p : ℝ) + (d : ℝ)) := by
  simp only [irt_pass_likelihood, irt_discriminabilities, USING_2PL, Bool.false_eq_true,
    if_false, one_mul]
  push_cast
  ring_nf

/-! ## Claims about the synthetic generators and scoring functions -/

/-- Claim C3, counterexample: in the 1PL generative scenario the code's pass
likelihood at proficiency 0 and difficulty 1 is `sigmoid(0 + 1)`, not the
claimed `sigmoid(0 - 1)`: the difficulty enters the generator's logit with a
positive sign. -/
theorem c3_counterexample :
    irt_pass_likelihood (irt_discriminabilities (fun _ => 0) 0) 0 1 ≠
      spec_onepl_pass_prob 0 1 := by
  intro h
  rw [aux_onepl_collapse, spec_onepl_pass_prob] at h
  have := sigmoid_strictMono.injective h
  norm_num at this

/-- Claim C3, amended: in the 1PL generative scenario (discriminabilities
all one) the generator's pass likelihood is
`sigmoid(proficiency[s] + difficulty[a])`: proficiency and difficulty enter
the logit with the same positive sign. -/
theorem c3_onepl_logit (draws prof diff : ℕ → ℚ) (s a : ℕ) :
    irt_pass_likelihood (irt_discriminabilities draws a) (prof s) (diff a) =
      sigmoid ((prof s : ℝ) + (diff a : ℝ)) :=
  aux_onepl_collapse draws (prof s) (diff a) a

/-- Claim C7: the 1PL parameter-recovery scenario uses 2000 students and
3000 assessments, draws proficiencies and difficulties with
`np.random.normal(0, 1, _)`, sets every discriminability to 1 in the 1PL
case, and samples each outcome as `np.random.random() < pass_likelihood`
where the pass likelihood is the true sigmoid model (which, with unit
discriminabilities, is `sigmoid(proficiency + difficulty)`). -/
theorem c7_onepl_recovery_setup :
    irt_num_students = 2000 ∧ irt_num_assessments = 3000 ∧
      proficiency_normal_params = (0, 1) ∧ difficulty_normal_params = (0, 1) ∧
      USING_2PL = false ∧ (∀ draws a, irt_discriminabilities draws a = 1) ∧
      ∀ (draws prof diff : ℕ → ℚ) (u : ℚ) (s a : ℕ),
        irt_outcome u (irt_discriminabilities draws a) (prof s) (diff a) ↔
          (u : ℝ) < sigmoid ((prof s : ℝ) + (diff a : ℝ)) := by
  refine ⟨rfl, rfl, rfl, rfl, rfl, fun draws a => rfl, fun draws prof diff u s a => ?_⟩
  rw [irt_outcome, aux_onepl_collapse]

/-- Claim C9: both clamped embedding families of the synthetic grid carry
the elementwise floor `1e-3`, so the norm of every assessment embedding
(the divisor of the scoring function) is strictly positive. -/
theorem c9_embedding_floor :
    (∀ a k, (1 : ℚ) / 1000 ≤ A_emb a k) ∧ (∀ l k, (1 : ℚ) / 1000 ≤ Q_emb l k) ∧
      ∀ a, 0 < norm_vec (A_emb a) := by
  refine ⟨fun a k => le_max_left _ _, fun l k => le_max_left _ _, fun a => ?_⟩
  rw [norm_vec, Real.sqrt_pos]
  have h0 : (1 : ℚ) / 1000 ≤ A_emb a 0 := le_max_left _ _
  have h1 : (1 : ℚ) / 1000 ≤ A_emb a 1 := le_max_left _ _
  have hq : (0 : ℚ) < sq_sum (A_emb a) := by
    rw [sq_sum, Fin.sum_univ_two]
    nlinarith
  exact_mod_cast hq

/-- Claim C2: the generator initializes every skill state to the zero
vector, and for every timestep `t` at which a lesson is consumed the skill
state at `t+1` differs from the state at `t` by exactly the consumed
lesson's embedding (the prerequisite gate is commented out in the source,
so the ungated update applies); the fitted model's trajectory (modelled
from the spec, where the same recurrence is an equality constraint of the
estimator) satisfies the same relation with the fitted lesson embeddings. -/
theorem c2_skill_transition :
    (∀ steps, S_emb steps 0 = fun _ => 0) ∧
      (∀ steps t, 1 ≤ t → t ≤ steps.length →
        S_emb steps (t + 1) - S_emb steps t = L_emb (steps.getD (t - 1) 0)) ∧
      ∀ (emb : ℕ → Vec) steps t, 1 ≤ t → t ≤ steps.length →
        fitted_skill_state emb steps (t + 1) - fitted_skill_state emb steps t =
          emb (steps.getD (t - 1) 0) := by
  refine ⟨fun _ => rfl, fun steps t h1 h2 => ?_, fun emb steps t h1 h2 => ?_⟩
  · show S_emb steps t + lesson_update steps t - S_emb steps t = _
    rw [add_sub_cancel_left, lesson_update, if_pos ⟨h1, h2⟩]
  · show fitted_skill_state emb steps t + _ - fitted_skill_state emb steps t = _
    rw [add_sub_cancel_left, if_pos ⟨h1, h2⟩]

/-- Witness for C2 at a concrete input: one consumed lesson, timestep 1. -/
theorem c2_witness :
    (1 ≤ 1 ∧ 1 ≤ ([0] : List ℕ).length) ∧
      S_emb [0] 2 - S_emb [0] 1 = L_emb (([0] : List ℕ).getD 0 0) :=
  ⟨⟨le_refl 1, by decide⟩, c2_skill_transition.2.1 [0] 1 (by decide) (by decide)⟩

/-- A full generator path for one student: four upward lessons from `(0,0)`
to `(0,4)`, then four rightward lessons to `(4,4)` (lesson indices in
`lesson_specs` order). -/
def steps0 : List ℕ := [0, 2, 4, 6, 8, 17, 26, 35]

/-- Claim C1, counterexample: inside the per-step assessment loop the debug
override samples outcomes on the assessment at grid location `(0,0)` with
constant probability `0.1`; at the generator state reached after the first
lesson of the path `steps0`, that probability differs from the embedding
model's pass probability at that state (the claimed Bernoulli parameter),
which is above `1/2`. -/
theorem c1_counterexample :
    step_outcome_prob (S_emb steps0 2) assessment_idx00 ≠
      emb_pass_likelihood (S_emb steps0 2) assessment_idx00 := by
  have hdot : dot_vec (S_emb steps0 2) (A_emb 0) = 1 / 400 := by
    norm_num [dot_vec, Fin.sum_univ_two, S_emb, lesson_update, steps0, L_emb,
      lesson_specs_eq, A_emb, cell_size, grid_size, loc_vec, max_def]
  have hsq : sq_sum (A_emb 0) = 1 / 500000 := by
    norm_num [sq_sum, Fin.sum_univ_two, A_emb, cell_size, grid_size, loc_vec, max_def]
  have hnpos : 0 < norm_vec (A_emb 0) := by
    rw [norm_vec, hsq, Real.sqrt_pos]
    norm_num
  have hnn : norm_vec (A_emb 0) * norm_vec (A_emb 0) = ((1 / 500000 : ℚ) : ℝ) := by
    rw [norm_vec, hsq]
    exact Real.mul_self_sqrt (by norm_num)
  have hlogit :
      0 < ((dot_vec (S_emb steps0 2) (A_emb 0) : ℚ) : ℝ) / norm_vec (A_emb 0) -
        norm_vec (A_emb 0) := by
    rw [sub_pos, lt_div_iff₀ hnpos, hnn, hdot]
    norm_num
  have hhalf := half_lt_sigmoid hlogit
  simp only [assessment_idx00, step_outcome_prob, emb_pass_likelihood, if_pos rfl]
  intro h
  rw [← h] at hhalf
  norm_num at hhalf

/-- Claim C1, amended: outside the debug override (every assessment index
other than the one at grid location `(0,0)`), the generator's Bernoulli
success probability is exactly the embedding model's pass probability with
both bias terms zero, and likewise for the un-overridden pass likelihood
used for the first interaction; at the overridden index the per-step
probability is the constant `0.1`. -/
theorem c1_generator_probabilities :
    (∀ S a, emb_pass_likelihood S a = embedding_model_pass_prob S (A_emb a) 0 0) ∧
      (∀ S a, assessment_idx00 ≠ a →
        step_outcome_prob S a = embedding_model_pass_prob S (A_emb a) 0 0) ∧
      ∀ S, step_outcome_prob S assessment_idx00 = 1 / 10 := by
  refine ⟨fun S a => ?_, fun S a h => ?_, fun S => ?_⟩
  · rw [emb_pass_likelihood, embedding_model_pass_prob, add_zero, add_zero]
  · rw [step_outcome_prob, if_neg h, emb_pass_likelihood, embedding_model_pass_prob,
      add_zero, add_zero]
  · rw [step_outcome_prob, if_pos rfl]

/-- Witness for C1 at a concrete non-overridden assessment index. -/
theorem c1_witness :
    assessment_idx00 ≠ 3 ∧
      step_outcome_prob (fun _ => 0) 3 =
        embedding_model_pass_prob (fun _ => 0) (A_emb 3) 0 0 :=
  ⟨by decide, c1_generator_probabilities.2.1 (fun _ => 0) 3 (by decide)⟩

/-! ## Helper lemmas about lists and the parsers -/

theorem aux_le_foldr_max {l : List ℕ} {x : ℕ} (hx : x ∈ l) : x ≤ l.foldr max 0 := by
  induction l with
  | nil => cases hx
  | cons a t ih =>
    rcases List.mem_cons.mp hx with h | h
    · subst h; exact le_max_left _ _
    · exact le_trans (ih h) (le_max_right _ _)

theorem aux_foldr_max_le {l : List ℕ} {c : ℕ} (h : ∀ x ∈ l, x ≤ c) : l.foldr max 0 ≤ c := by
  induction l with
  | nil => exact Nat.zero_le c
  | cons a t ih =>
    exact max_le (h a (List.mem_cons_self a t))
      (ih fun x hx => h x (List.mem_cons_of_mem _ hx))

theorem aux_indexOf_range' :
    ∀ (n s t : ℕ), s ≤ t → t < s + n → (List.range' s n).indexOf t = t - s := by
  intro n
  induction n with
  | zero => intro s t h1 h2; omega
  | succ n ih =>
    intro s t h1 h2
    rw [List.range'_succ]
    by_cases h : t = s
    · subst h
      simp [List.indexOf_cons_self]
    · rw [List.indexOf_cons_ne _ (by omega : s ≠ t), ih (s + 1) t (by omega) (by omega)]
      omega

theorem aux_assign_mem {ctr : ℕ → ℕ} {l : List RawIxn} {p : RawIxn × ℕ}
    (hp : p ∈ assign_timesteps ctr l) : p.1 ∈ l := by
  induction l generalizing ctr with
  | nil => cases hp
  | cons r rest ih =>
    rcases List.mem_cons.mp hp with h | h
    · subst h; exact List.mem_cons_self _ _
    · exact List.mem_cons_of_mem _ (ih h)

theorem aux_assign_ts (l : List RawIxn) :
    ∀ (ctr : ℕ → ℕ) (s : ℕ),
      ((assign_timesteps ctr l).filter (fun p => decide (p.1.student_id = s))).map Prod.snd =
        List.range' (ctr s + 1) (l.countP (fun r => decide (r.student_id = s))) := by
  induction l with
  | nil => intro ctr s; rfl
  | cons r rest ih =>
    intro ctr s
    by_cases h : r.student_id = s
    · subst h
      rw [assign_timesteps, List.filter_cons, if_pos (decide_eq_true_iff.mpr rfl),
        List.map_cons, List.countP_cons, if_pos (decide_eq_true_iff.mpr rfl), ih,
        List.range'_succ]
      simp
    · rw [assign_timesteps, List.filter_cons, if_neg (by simpa using h),
        List.countP_cons, if_neg (by simpa using h), ih]
      simp [Ne.symm h]

theorem aux_mem_ts_of {rows : List Ixn} {s t : ℕ} :
    t ∈ ts_of rows s ↔ ∃ r, r ∈ rows ∧ r.student_id = s ∧ r.timestep = t := by
  simp only [ts_of, student_rows, List.mem_map, List.mem_filter, decide_eq_true_iff]
  constructor
  · rintro ⟨r, ⟨hr, hs⟩, ht⟩
    exact ⟨r, hr, hs, ht⟩
  · rintro ⟨r, hr, hs, ht⟩
    exact ⟨r, ⟨hr, hs⟩, ht⟩

theorem aux_mem_assessment_ts {rows : List Ixn} {s t : ℕ} :
    t ∈ assessment_ts rows s ↔
      ∃ r, r ∈ rows ∧ r.student_id = s ∧ r.is_assessment = true ∧ r.timestep = t := by
  simp only [assessment_ts, student_rows, List.mem_map, List.mem_filter, decide_eq_true_iff]
  constructor
  · rintro ⟨r, ⟨⟨hr, hs⟩, ha⟩, ht⟩
    exact ⟨r, hr, hs, ha, ht⟩
  · rintro ⟨r, hr, hs, ha, ht⟩
    exact ⟨r, ⟨⟨hr, hs⟩, ha⟩, ht⟩

theorem aux_assessment_ts_subset {rows : List Ixn} {s t : ℕ}
    (h : t ∈ assessment_ts rows s) : t ∈ ts_of rows s := by
  rcases aux_mem_assessment_ts.mp h with ⟨r, hr, hs, _, ht⟩
  exact aux_mem_ts_of.mpr ⟨r, hr, hs, ht⟩

theorem aux_mem_distinct {rows : List Ixn} {s t : ℕ} :
    t ∈ distinct_ts rows s ↔ t ∈ ts_of rows s := by
  simp only [distinct_ts, List.mem_filter, List.mem_range, decide_eq_true_iff]
  constructor
  · rintro ⟨-, h⟩; exact h
  · intro h
    exact ⟨Nat.lt_succ_of_le (aux_le_foldr_max h), h⟩

theorem aux_distinct_nodup (rows : List Ixn) (s : ℕ) : (distinct_ts rows s).Nodup :=
  List.Nodup.filter _ (List.nodup_range _)

theorem aux_parser_assessment_ts (scale : ℚ) (raw : List RawIxn) (s : ℕ) :
    assessment_ts (parsed_rows scale raw) s =
      List.range' 1 ((raw.filter keep_ixn).countP (fun r => decide (r.student_id = s))) := by
  simp only [assessment_ts, student_rows, parsed_rows, List.filter_append, List.filter_map,
    List.map_append, List.map_map, List.filter_filter, Function.comp_def, as_assessment,
    as_lesson, Bool.true_and, Bool.false_and, List.filter_false, List.map_nil,
    List.append_nil]
  exact aux_assign_ts _ _ _

theorem aux_parser_ts_of (scale : ℚ) (raw : List RawIxn) (s : ℕ) :
    ts_of (parsed_rows scale raw) s =
      assessment_ts (parsed_rows scale raw) s ++ assessment_ts (parsed_rows scale raw) s := by
  simp only [ts_of, assessment_ts, student_rows, parsed_rows, List.filter_append,
    List.filter_map, List.map_append, List.map_map, List.filter_filter, Function.comp_def,
    as_assessment, as_lesson, Bool.true_and, Bool.false_and, List.filter_false,
    List.map_nil, List.append_nil]

theorem aux_keep_ixn_iff (r : RawIxn) :
    keep_ixn r = true ↔
      (r.outcome = some 0 ∨ r.outcome = some 1) ∧ ∃ d, r.duration = some d ∧ 0 < d := by
  cases hd : r.duration with
  | none => simp [keep_ixn, hd, or_comm]
  | some d => simp [keep_ixn, hd, or_comm]

theorem aux_parsed_origin {scale : ℚ} {raw : List RawIxn} {x : Ixn}
    (hx : x ∈ parsed_rows scale raw) :
    ∃ r0, r0 ∈ raw ∧ keep_ixn r0 = true ∧
      x.student_id = r0.student_id ∧ x.module_id = r0.module_id := by
  simp only [parsed_rows, List.mem_append, List.mem_map, List.map_map,
    Function.comp_def] at hx
  have key : ∀ p ∈ assign_timesteps (fun _ => 0) (raw.filter keep_ixn),
      ∃ r0, r0 ∈ raw ∧ keep_ixn r0 = true ∧
        p.1.student_id = r0.student_id ∧ p.1.module_id = r0.module_id := by
    intro p hp
    have h1 := aux_assign_mem hp
    rcases List.mem_filter.mp h1 with ⟨hmem, hkeep⟩
    exact ⟨p.1, hmem, hkeep, rfl, rfl⟩
  rcases hx with ⟨p, hp, rfl⟩ | ⟨p, hp, rfl⟩
  · rcases key p hp with ⟨r0, h1, h2, h3, h4⟩
    exact ⟨r0, h1, h2, h3, h4⟩
  · rcases key p hp with ⟨r0, h1, h2, h3, h4⟩
    exact ⟨r0, h1, h2, h3, h4⟩

/-! ## Claims about data ingestion -/

/-- Claim C5: each of the three dataset parsers retains a raw row exactly
when its outcome is binary (0 or 1) and its duration is strictly positive
(missing/NaN entries fail both tests); every interaction of the
constructed history originates from such a retained row, so malformed rows
never reach a history. -/
theorem c5_ingestion_filter :
    (∀ (raw : List RawIxn) (r : RawIxn),
        r ∈ raw.filter keep_ixn ↔
          r ∈ raw ∧ (r.outcome = some 0 ∨ r.outcome = some 1) ∧
            ∃ d, r.duration = some d ∧ 0 < d) ∧
      (∀ raw, interaction_history_from_grockit_data_set raw = parsed_rows 1 raw ∧
        interaction_history_from_kdd_cup_data_set raw = parsed_rows 1 raw ∧
        interaction_history_from_assistments_data_set raw = parsed_rows 1000 raw) ∧
      ∀ (scale : ℚ) (raw : List RawIxn) (x : Ixn), x ∈ parsed_rows scale raw →
        ∃ r0, r0 ∈ raw ∧ keep_ixn r0 = true ∧
          x.student_id = r0.student_id ∧ x.module_id = r0.module_id := by
  refine ⟨fun raw r => ?_, fun raw => ⟨rfl, rfl, rfl⟩, fun scale raw x hx =>
    aux_parsed_origin hx⟩
  rw [List.mem_filter, aux_keep_ixn_iff]

/-- The retained raw row used by the C5 and C10 witnesses. -/
def raw0 : RawIxn := { student_id := 5, outcome := some 1, module_id := 9, duration := some 2 }

theorem aux_raw0_parsed :
    parsed_rows 1 [raw0] =
      [as_assessment 1 (raw0, 1), as_lesson (as_assessment 1 (raw0, 1))] := by
  simp [parsed_rows, raw0, keep_ixn, assign_timesteps]

/-- Witness for C5 at a concrete input: the assessment row produced from
`raw0` originates from a retained raw row. -/
theorem c5_witness :
    as_assessment 1 (raw0, 1) ∈ parsed_rows 1 [raw0] ∧
      ∃ r0, r0 ∈ [raw0] ∧ keep_ixn r0 = true ∧
        (as_assessment 1 (raw0, 1)).student_id = r0.student_id ∧
        (as_assessment 1 (raw0, 1)).module_id = r0.module_id :=
  ⟨by rw [aux_raw0_parsed]; exact List.mem_cons_self _ _,
    c5_ingestion_filter.2.2 1 [raw0] (as_assessment 1 (raw0, 1))
      (by rw [aux_raw0_parsed]; exact List.mem_cons_self _ _)⟩

theorem aux_relabel (x : Ixn) (hx : x.is_assessment = true) :
    { as_lesson x with is_assessment := true } = x := by
  cases x
  simp only [as_lesson]
  simp_all

/-- Claim C10: every parser appends, for each retained assessment row, a
deep copy re-tagged as a lesson interaction, so the history holds equally
many assessment and lesson interactions, and each lesson row carries the
copied boolean outcome and its assessment twin's timestep (the twin is the
same row with only the module type restored). -/
theorem c10_lesson_twins :
    (∀ raw, interaction_history_from_grockit_data_set raw = parsed_rows 1 raw ∧
        interaction_history_from_kdd_cup_data_set raw = parsed_rows 1 raw ∧
        interaction_history_from_assistments_data_set raw = parsed_rows 1000 raw) ∧
      (∀ (scale : ℚ) (raw : List RawIxn),
        (parsed_rows scale raw).countP (·.is_assessment) =
          (parsed_rows scale raw).countP (fun r => !r.is_assessment)) ∧
      ∀ (scale : ℚ) (raw : List RawIxn) (r : Ixn), r ∈ parsed_rows scale raw →
        r.is_assessment = false →
          { r with is_assessment := true } ∈ parsed_rows scale raw ∧
            ∃ b, r.outcome = some b := by
  refine ⟨fun raw => ⟨rfl, rfl, rfl⟩, fun scale raw => ?_, fun scale raw r hr hfalse => ?_⟩
  · simp only [parsed_rows, List.countP_append, List.countP_map, List.map_map,
      Function.comp_def, as_assessment, as_lesson]
    simp [List.countP_true, List.countP_false]
  · simp only [parsed_rows, List.mem_append, List.mem_map, List.map_map,
      Function.comp_def] at hr ⊢
    rcases hr with ⟨p, hp, rfl⟩ | ⟨p, hp, rfl⟩
    · cases hfalse
    · refine ⟨Or.inl ⟨p, hp, ?_⟩, ⟨decide (p.1.outcome = some 1), rfl⟩⟩
      exact (aux_relabel (as_assessment scale p) (by simp [as_assessment])).symm

theorem aux_ts_of_reindex (rows : List Ixn) (s : ℕ) :
    ts_of (reindex_history rows) s = (ts_of rows s).map (fun t => new_ts rows s t) := by
  simp only [ts_of, reindex_history, student_rows, List.filter_map, Function.comp_def,
    List.map_map]
  apply List.map_congr_left
  intro r hr
  have hs : r.student_id = s := by
    have := (List.mem_filter.mp hr).2
    simpa using this
  simp [hs]

theorem aux_nodup_indexOf_get {l : List ℕ} (hnd : l.Nodup) {i : ℕ} (hi : i < l.length) :
    l.indexOf (l.get ⟨i, hi⟩) = i := by
  have h1 : l.get ⟨i, hi⟩ ∈ l := l.get_mem i hi
  have h2 := List.indexOf_lt_length.mpr h1
  have h3 := List.indexOf_get h2
  have h4 := (List.Nodup.get_inj_iff hnd).mp h3
  exact congrArg Fin.val h4

theorem aux_reindex_contiguous (rows : List Ixn) (s : ℕ) :
    (ts_of (reindex_history rows) s).toFinset =
      Finset.Icc 1 (distinct_ts rows s).length := by
  ext x
  simp only [aux_ts_of_reindex, List.mem_toFinset, List.mem_map, Finset.mem_Icc]
  constructor
  · rintro ⟨t, ht, rfl⟩
    have hmem : t ∈ distinct_ts rows s := aux_mem_distinct.mpr ht
    have hlt := List.indexOf_lt_length.mpr hmem
    rw [new_ts]
    omega
  · rintro ⟨hx1, hx2⟩
    have hi : x - 1 < (distinct_ts rows s).length := by omega
    refine ⟨(distinct_ts rows s).get ⟨x - 1, hi⟩,
      aux_mem_distinct.mp ((distinct_ts rows s).get_mem _ _), ?_⟩
    rw [new_ts, aux_nodup_indexOf_get (aux_distinct_nodup rows s) hi]
    omega

/-- Claim C6: in every parser-constructed history, each student's
assessment timesteps are exactly `1, 2, ..., count` in chronological order,
and the student's full timestep list is that contiguous range taken twice
(once for the assessment rows and once for their lesson copies, which share
the assessments' timesteps); after reindexing (modelled from the spec) the
set of a student's timesteps is again the gapless range from 1 to the
number of distinct original timesteps. -/
theorem c6_timesteps_contiguous :
    (∀ (scale : ℚ) (raw : List RawIxn) (s : ℕ),
        assessment_ts (parsed_rows scale raw) s =
          List.range' 1 (assessment_count (parsed_rows scale raw) s)) ∧
      (∀ (scale : ℚ) (raw : List RawIxn) (s : ℕ),
        ts_of (parsed_rows scale raw) s =
          assessment_ts (parsed_rows scale raw) s ++
            assessment_ts (parsed_rows scale raw) s) ∧
      ∀ (rows : List Ixn) (s : ℕ),
        (ts_of (reindex_history rows) s).toFinset =
          Finset.Icc 1 (distinct_ts rows s).length := by
  refine ⟨fun scale raw s => ?_, fun scale raw s => aux_parser_ts_of scale raw s,
    fun rows s => aux_reindex_contiguous rows s⟩
  rw [assessment_count, aux_parser_assessment_ts, List.length_range']

/-- Witness for C10 at a concrete input: the lesson copy of the single
retained row of `raw0` has its assessment twin in the parsed history. -/
theorem c10_witness :
    as_lesson (as_assessment 1 (raw0, 1)) ∈ parsed_rows 1 [raw0] ∧
      ({ as_lesson (as_assessment 1 (raw0, 1)) with is_assessment := true } ∈
          parsed_rows 1 [raw0] ∧
        ∃ b, (as_lesson (as_assessment 1 (raw0, 1))).outcome = some b) :=
  ⟨by rw [aux_raw0_parsed]; exact List.mem_cons_of_mem _ (List.mem_cons_self _ _),
    c10_lesson_twins.2.2 1 [raw0] (as_lesson (as_assessment 1 (raw0, 1)))
      (by rw [aux_raw0_parsed]; exact List.mem_cons_of_mem _ (List.mem_cons_self _ _)) rfl⟩

/-! ## Filtering semantics -/

theorem aux_wi_elim {rows : List Ixn} (hw : well_indexed rows = true) {r : Ixn}
    (hr : r ∈ rows) :
    1 ≤ r.timestep ∧ r.timestep ≤ assessment_count rows r.student_id ∧
      assessment_ts rows r.student_id =
        List.range' 1 (assessment_count rows r.student_id) := by
  rw [well_indexed, List.all_eq_true] at hw
  have h := hw r hr
  simp only [Bool.and_eq_true, decide_eq_true_iff] at h
  exact ⟨h.1.1, h.1.2, h.2⟩

theorem aux_wi_range {rows : List Ixn} (hw : well_indexed rows = true) {s : ℕ}
    (hc : 1 ≤ assessment_count rows s) :
    assessment_ts rows s = List.range' 1 (assessment_count rows s) := by
  have hlen : 0 < (assessment_ts rows s).length := hc
  rcases List.exists_mem_of_ne_nil _ (List.length_pos.mp hlen) with ⟨t, ht⟩
  rcases aux_mem_assessment_ts.mp ht with ⟨r, hr, hs, -, -⟩
  have h := (aux_wi_elim hw hr).2.2
  rwa [hs] at h

theorem aux_count_mem_assessment_ts {rows : List Ixn} (hw : well_indexed rows = true)
    {s : ℕ} (hc : 1 ≤ assessment_count rows s) :
    assessment_count rows s ∈ assessment_ts rows s := by
  rw [aux_wi_range hw hc, List.mem_range'_1]
  omega

theorem aux_ts_of_bounds {rows : List Ixn} (hw : well_indexed rows = true) {s t : ℕ}
    (ht : t ∈ ts_of rows s) : 1 ≤ t ∧ t ≤ assessment_count rows s := by
  rcases aux_mem_ts_of.mp ht with ⟨r, hr, hs, rfl⟩
  have h := aux_wi_elim hw hr
  rw [hs] at h
  exact ⟨h.1, h.2.1⟩

theorem aux_student_kept_iff {rows : List Ixn} (hw : well_indexed rows = true)
    (mn mx s : ℕ) :
    student_kept rows mn mx s = true ↔
      mn < assessment_count rows s ∧ assessment_count rows s < mx := by
  simp only [student_kept, Bool.and_eq_true, Bool.not_eq_true', List.any_eq_true,
    List.any_eq_false, Bool.and_eq_true, decide_eq_true_iff]
  constructor
  · rintro ⟨⟨r, hr, ⟨hs, hmn⟩, hass⟩, hall⟩
    have h1 := aux_wi_elim hw hr
    rw [hs] at h1
    have hcmn : mn < assessment_count rows s := lt_of_lt_of_le hmn h1.2.1
    refine ⟨hcmn, ?_⟩
    by_contra hge
    push_neg at hge
    have hc : 1 ≤ assessment_count rows s := by omega
    rcases aux_mem_assessment_ts.mp (aux_count_mem_assessment_ts hw hc) with
      ⟨r1, hr1, hs1, -, ht1⟩
    have := hall r1 hr1
    simp only [Bool.and_eq_true, decide_eq_true_iff] at this
    exact this ⟨hs1, by omega⟩
  · rintro ⟨hmn, hmx⟩
    have hc : 1 ≤ assessment_count rows s := by omega
    rcases aux_mem_assessment_ts.mp (aux_count_mem_assessment_ts hw hc) with
      ⟨r1, hr1, hs1, hass1, ht1⟩
    refine ⟨⟨r1, hr1, ⟨hs1, by omega⟩, hass1⟩, ?_⟩
    intro r hr
    rintro ⟨hs, hts⟩
    have h1 := aux_wi_elim hw hr
    rw [hs] at h1
    omega

theorem aux_max_ts_eq {rows : List Ixn} (hw : well_indexed rows = true) {s : ℕ}
    (hc : 1 ≤ assessment_count rows s) :
    max_ts rows s = assessment_count rows s := by
  apply Nat.le_antisymm
  · exact aux_foldr_max_le fun x hx => (aux_ts_of_bounds hw hx).2
  · exact aux_le_foldr_max
      (aux_assessment_ts_subset (aux_count_mem_assessment_ts hw hc))

theorem aux_distinct_eq {rows : List Ixn} (hw : well_indexed rows = true) {s : ℕ}
    (hc : 1 ≤ assessment_count rows s) :
    distinct_ts rows s = List.range' 1 (assessment_count rows s) := by
  have h0 : 0 ∉ ts_of rows s := by
    intro h
    have := (aux_ts_of_bounds hw h).1
    omega
  have hsub : ∀ t ∈ List.range' 1 (assessment_count rows s), t ∈ ts_of rows s := by
    intro t htm
    apply aux_assessment_ts_subset
    rw [aux_wi_range hw hc]
    exact htm
  rw [distinct_ts, aux_max_ts_eq hw hc, List.range_eq_range', List.range'_succ]
  simp only [Nat.zero_add]
  rw [List.filter_cons, if_neg (by simpa using h0),
    List.filter_eq_self.mpr (by intro a ha; simpa using hsub a ha)]

theorem aux_reindex_id {rows : List Ixn} (hw : well_indexed rows = true) :
    reindex_history rows = rows := by
  rw [reindex_history]
  have hpt : ∀ r ∈ rows,
      { r with timestep := new_ts rows r.student_id r.timestep } = r := by
    intro r hr
    have h1 := aux_wi_elim hw hr
    have hc : 1 ≤ assessment_count rows r.student_id := le_trans h1.1 h1.2.1
    have hts : new_ts rows r.student_id r.timestep = r.timestep := by
      rw [new_ts, aux_distinct_eq hw hc,
        aux_indexOf_range' (assessment_count rows r.student_id) 1 r.timestep h1.1
          (by omega)]
      omega
    rw [hts]
  calc rows.map (fun r => { r with timestep := new_ts rows r.student_id r.timestep })
      = rows.map (fun r => r) := List.map_congr_left hpt
    _ = rows := by simp

/-- An assessment interaction row used by concrete examples. -/
def exA (s m t : ℕ) : Ixn :=
  { student_id := s, module_id := m, is_assessment := true, outcome := some true,
    timestep := t, duration := 1 }

/-- A lesson interaction row used by concrete examples. -/
def exL (s m t : ℕ) : Ixn :=
  { student_id := s, module_id := m, is_assessment := false, outcome := some true,
    timestep := t, duration := 1 }

/-- A history on which the claimed inclusive filter bounds disagree with the
code: students 1, 2 and 3 have 1, 3 and 2 assessment interactions (plus the
lesson copies), all on module 7. -/
def ex4 : List Ixn :=
  [exA 1 7 1, exL 1 7 1,
    exA 2 7 1, exA 2 7 2, exA 2 7 3, exL 2 7 1, exL 2 7 2, exL 2 7 3,
    exA 3 7 1, exA 3 7 2, exL 3 7 1, exL 3 7 2]

/-- Claim C4, counterexample: with thresholds `min = 1` and `max = 3`,
student 1 (assessment count 1 = min) and student 2 (assessment count
3 = max) both lie inside the claimed inclusive interval `[min, max]` and
their module passes the module test, yet `filter_history` drops every one
of their rows: the code keeps a student only when the count is strictly
between the thresholds. -/
theorem c4_counterexample :
    (∃ r ∈ ex4, r.student_id = 1 ∧
        1 ≤ assessment_count ex4 1 ∧ assessment_count ex4 1 ≤ 3 ∧
        1 < module_count ex4 r.module_id) ∧
      (∀ r ∈ filter_history ex4 1 3, r.student_id ≠ 1) ∧
      filter_kept_rows ex4 1 3 ≠ claimed_filter ex4 1 3 ∧
      (∃ r ∈ ex4, r.student_id = 2 ∧
        1 ≤ assessment_count ex4 2 ∧ assessment_count ex4 2 ≤ 3 ∧
        1 < module_count ex4 r.module_id) ∧
      ∀ r ∈ filter_history ex4 1 3, r.student_id ≠ 2 := by
  decide

/-- Claim C4, amended: on a history satisfying the per-student timestep
invariant, `filter_history` returns the reindexed sublist of exactly those
rows whose student's assessment-interaction count lies strictly between
`min` and `max` (the open interval, not the claimed closed one) and whose
module has more than `min` interactions in the input history. -/
theorem c4_filter_semantics (rows : List Ixn) (mn mx : ℕ) (r : Ixn)
    (hw : well_indexed rows = true) :
    (filter_history rows mn mx = reindex_history (filter_kept_rows rows mn mx)) ∧
      (r ∈ filter_kept_rows rows mn mx ↔
        r ∈ rows ∧ mn < assessment_count rows r.student_id ∧
          assessment_count rows r.student_id < mx ∧
          mn < module_count rows r.module_id) := by
  refine ⟨rfl, ?_⟩
  rw [filter_kept_rows, List.mem_filter, Bool.and_eq_true, aux_student_kept_iff hw,
    module_kept, decide_eq_true_iff]
  tauto

/-- Witness for C4 at a concrete input. -/
theorem c4_witness :
    well_indexed ex4 = true ∧
      ((filter_history ex4 1 3 = reindex_history (filter_kept_rows ex4 1 3)) ∧
        (exA 3 7 1 ∈ filter_kept_rows ex4 1 3 ↔
          exA 3 7 1 ∈ ex4 ∧ 1 < assessment_count ex4 (exA 3 7 1).student_id ∧
            assessment_count ex4 (exA 3 7 1).student_id < 3 ∧
            1 < module_count ex4 (exA 3 7 1).module_id)) :=
  ⟨by decide, c4_filter_semantics ex4 1 3 (exA 3 7 1) (by decide)⟩

/-- A history that is a fixed point of the filter for `min = 1`, `max = 3`:
one student with 2 assessment interactions and their lesson copies. -/
def ex8 : List Ixn := [exA 3 7 1, exA 3 7 2, exL 3 7 1, exL 3 7 2]

/-- Claim C8: on a well-indexed history at a filtering fixed point (the
row-selection stage removes no rows), `filter_history` returns the history
unchanged, hence applying it once more returns an identical history; and
the reference pipeline's `reduce` loop is exactly three applications of
`filter_history` with thresholds 75 and 1000. -/
theorem c8_filter_fixed_point (rows : List Ixn) (mn mx : ℕ)
    (hw : well_indexed rows = true)
    (hfix : filter_kept_rows rows mn mx = rows) :
    filter_history rows mn mx = rows ∧
      filter_history (filter_history rows mn mx) mn mx = filter_history rows mn mx ∧
      ∀ h : List Ixn, repeated_filter h =
        filter_history (filter_history (filter_history h 75 1000) 75 1000) 75 1000 := by
  have h1 : filter_history rows mn mx = rows := by
    rw [filter_history, hfix, aux_reindex_id hw]
  exact ⟨h1, by rw [h1, h1], fun h => rfl⟩

/-- Witness for C8 at a concrete input. -/
theorem c8_witness :
    well_indexed ex8 = true ∧ filter_kept_rows ex8 1 3 = ex8 ∧
      filter_history ex8 1 3 = ex8 :=
  ⟨by decide, by decide, (c8_filter_fixed_point ex8 1 3 (by decide) (by decide)).1⟩

end Lentil
